import Mathlib

/-!
Shallow embedding of `src/Recipe_app.py` (a Streamlit recipe browser) and
proofs about its store, filter and add-recipe logic.

The recipe store is a pandas DataFrame indexed by recipe name; we embed it
as an association list of (name, record) pairs in row order.  `df.loc[name]
= row` replaces the row in place when the index already holds `name` and
appends a new row otherwise; this is `locSet` below.  Ratings are Python
floats moved by a 0.1-step slider; we embed them as rationals, which is
exact at every value the program compares.
-/

namespace RecipeApp

/-- A recipe row: the five columns of the DataFrame built in
`initialize_data` (Cuisine, Ingredients, Prep Time, Difficulty, Rating). -/
structure Recipe where
  cuisine : String
  ingredients : List String
  prepTime : Nat
  difficulty : String
  rating : ℚ
deriving DecidableEq, Repr

/-- The store: DataFrame rows in order, keyed by the index (recipe name). -/
abbrev Store := List (String × Recipe)

/-- The three seed recipes of `initialize_data` (lines 14-18): ratings
4.5, 4.8 and 3.7 as exact rationals. -/
def seedStore : Store :=
  [("Spaghetti Carbonara",
      ⟨"Italian", ["Pasta", "Eggs", "Cheese", "Bacon"], 20, "Medium", mkRat 45 10⟩),
   ("Chicken Tikka Masala",
      ⟨"Indian", ["Chicken", "Yogurt", "Spices", "Tomato Sauce"], 45, "Hard", mkRat 48 10⟩),
   ("Avocado Toast",
      ⟨"American", ["Bread", "Avocado", "Salt", "Pepper"], 5, "Easy", mkRat 37 10⟩)]

/-- Pandas `df.loc[name] = row`: overwrite the row in place when `name` is
already in the index, otherwise append a new row at the end. -/
def locSet (store : Store) (name : String) (r : Recipe) : Store :=
  if store.any (fun p => p.1 == name) then
    store.map (fun p => if p.1 == name then (name, r) else p)
  else
    store ++ [(name, r)]

/-- Look a recipe up by its name (DataFrame row access by index label). -/
def getRecipe (store : Store) (name : String) : Option Recipe :=
  (store.find? (fun p => p.1 == name)).map Prod.snd

/-- Python `str.split(',')` at the character level: cut the character list
at every comma; the empty string yields one empty token. -/
def splitCommasAux : List Char → List Char → List (List Char)
  | [], acc => [acc.reverse]
  | c :: cs, acc =>
    if c = ',' then acc.reverse :: splitCommasAux cs []
    else splitCommasAux cs (c :: acc)

/-- Python `str.strip()`: drop whitespace from both ends. -/
def pyStrip (cs : List Char) : List Char :=
  ((cs.dropWhile Char.isWhitespace).reverse.dropWhile Char.isWhitespace).reverse

/-- Line 166: `[i.strip() for i in ingredients.split(',')]`. -/
def splitIngredients (text : String) : List String :=
  (splitCommasAux text.data []).map (fun cs => String.mk (pyStrip cs))

/-- The difficulty options offered by the selectbox / multiselect
(lines 134 and 159). -/
def difficultyOptions : List String := ["Easy", "Medium", "Hard"]

/-- `handle_recipe_explorer` (lines 98-118): reads the store, filters rows
whose Cuisine equals the selection, and renders cards.  It never assigns
`st.session_state.recipes`, so the returned session store is the input
store; the second component is the filtered view. -/
def handle_recipe_explorer (store : Store) (selectedCuisine : String) :
    Store × Store :=
  (store, store.filter (fun p => p.2.cuisine == selectedCuisine))

/-- `handle_smart_search` (lines 120-149): the filter of lines 138-142,
`(Prep Time <= max_time) & (Rating >= min_rating) & Difficulty.isin(difficulty)`.
The handler never assigns the session store; first component is the
unchanged store, second is `filtered`. -/
def handle_smart_search (store : Store) (maxTime : Nat) (minRating : ℚ)
    (difficulty : List String) : Store × Store :=
  (store,
   store.filter (fun p =>
     decide (p.2.prepTime ≤ maxTime ∧ minRating ≤ p.2.rating ∧
       p.2.difficulty ∈ difficulty)))

/-- Line 23 of `create_ingredient_cloud`:
`' '.join([' '.join(items) for items in df['Ingredients']])` — the text
handed to `WordCloud(...).generate` with no emptiness guard. -/
def ingredientText (store : Store) : String :=
  String.intercalate " " (store.map (fun p => String.intercalate " " p.2.ingredients))

/-- `handle_analytics` (lines 176-189): renders charts from the store and
never assigns the session store; second component is the word-cloud text. -/
def handle_analytics (store : Store) : Store × String :=
  (store, ingredientText store)

/-- `handle_add_recipe` submission (lines 162-174): Python truthiness
`if name and cuisine` means both strings non-empty.  On success the new
row is written with `st.session_state.recipes.loc[name] = new_recipe`
(line 171) and `True` (st.success) is reported; otherwise the store is
untouched and `False` (st.error) is reported. -/
def handle_add_recipe (store : Store) (name cuisine ingredients : String)
    (prepTime : Nat) (difficulty : String) (rating : ℚ) : Store × Bool :=
  if name ≠ "" ∧ cuisine ≠ "" then
    (locSet store name ⟨cuisine, splitIngredients ingredients, prepTime, difficulty, rating⟩,
     true)
  else
    (store, false)

/-- One user interaction: the four navigation modes of `main` (lines 88-95)
with the widget inputs each mode reads. -/
inductive Op where
  | explorer (cuisine : String)
  | search (maxTime : Nat) (minRating : ℚ) (difficulty : List String)
  | addRecipe (name cuisine ingredients : String) (prepTime : Nat)
      (difficulty : String) (rating : ℚ)
  | analytics

/-- The session store after one interaction. -/
def applyOp (store : Store) : Op → Store
  | .explorer c => (handle_recipe_explorer store c).1
  | .search mt mr d => (handle_smart_search store mt mr d).1
  | .addRecipe n c i pt d rt => (handle_add_recipe store n c i pt d rt).1
  | .analytics => (handle_analytics store).1

/-- The session store after a sequence of interactions. -/
def runOps (store : Store) : List Op → Store
  | [] => store
  | op :: ops => runOps (applyOp store op) ops

/-- The ranges the input widgets enforce on an add-recipe submission:
`st.number_input("Prep Time (minutes)", 1, 240)`, the difficulty
selectbox, and `st.slider("Rating", 1.0, 5.0, 3.0)` (lines 158-160).
The other modes take no constrained inputs that reach the store. -/
def widgetOk : Op → Prop
  | .addRecipe _ _ _ pt d rt =>
      1 ≤ pt ∧ pt ≤ 240 ∧ d ∈ difficultyOptions ∧ 1 ≤ rt ∧ rt ≤ 5
  | _ => True

/-- The data-model invariant on a recipe: positive prep time, difficulty
one of Easy/Medium/Hard, rating between 1.0 and 5.0 inclusive. -/
def RecipeValid (r : Recipe) : Prop :=
  0 < r.prepTime ∧ r.difficulty ∈ difficultyOptions ∧ 1 ≤ r.rating ∧ r.rating ≤ 5

instance (r : Recipe) : Decidable (RecipeValid r) := by
  unfold RecipeValid; infer_instance

/-- Store states reachable in a session: the seed store, and any state
obtained from a reachable state by one interaction whose inputs the
widgets allow. -/
inductive Reachable : Store → Prop where
  | seed : Reachable seedStore
  | next (s : Store) (op : Op) (h : Reachable s) (hw : widgetOk op) :
      Reachable (applyOp s op)

/-! ### Helper lemmas about the store operations -/

lemma find?_replace_self (l : Store) (n : String) (r : Recipe)
    (h : l.any (fun p => p.1 == n) = true) :
    (l.map (fun p => if p.1 == n then (n, r) else p)).find? (fun p => p.1 == n) =
      some (n, r) := by
  induction l with
  | nil => simp at h
  | cons p rest ih =>
    rw [List.map_cons]
    by_cases hp : (p.1 == n) = true
    · rw [if_pos hp]
      exact List.find?_cons_of_pos _ (by simp)
    · have hp' : (p.1 == n) = false := by simpa using hp
      rw [if_neg hp, List.find?_cons_of_neg (p := fun q : String × Recipe => q.1 == n) _ hp]
      apply ih
      simpa [List.any_cons, hp'] using h

lemma find?_append_single (l : Store) (n : String) (r : Recipe)
    (h : l.any (fun p => p.1 == n) = false) :
    (l ++ [(n, r)]).find? (fun p => p.1 == n) = some (n, r) := by
  induction l with
  | nil =>
    rw [List.nil_append]
    exact List.find?_cons_of_pos _ (by simp)
  | cons p rest ih =>
    simp only [List.any_cons, Bool.or_eq_false_iff] at h
    rw [List.cons_append,
      List.find?_cons_of_neg (p := fun q : String × Recipe => q.1 == n) _ (by simp [h.1])]
    exact ih h.2

lemma getRecipe_locSet (store : Store) (n : String) (r : Recipe) :
    getRecipe (locSet store n r) n = some r := by
  unfold getRecipe locSet
  cases hany : store.any (fun p => p.1 == n)
  · rw [if_neg (by simp), find?_append_single store n r hany]
    rfl
  · rw [if_pos rfl, find?_replace_self store n r hany]
    rfl

lemma find?_replace_ne (l : Store) (n m : String) (r : Recipe)
    (hm : (n == m) = false) :
    (l.map (fun p => if p.1 == n then (n, r) else p)).find? (fun p => p.1 == m) =
      l.find? (fun p => p.1 == m) := by
  induction l with
  | nil => simp
  | cons p rest ih =>
    rw [List.map_cons]
    by_cases hp : (p.1 == n) = true
    · have hp1 : p.1 = n := eq_of_beq hp
      rw [if_pos hp,
        List.find?_cons_of_neg (p := fun q : String × Recipe => q.1 == m) _ (by simp [hm]),
        List.find?_cons_of_neg (p := fun q : String × Recipe => q.1 == m) _ (by simp [hp1, hm])]
      exact ih
    · rw [if_neg hp]
      by_cases hpm : (p.1 == m) = true
      · rw [List.find?_cons_of_pos (p := fun q : String × Recipe => q.1 == m) _ hpm,
          List.find?_cons_of_pos (p := fun q : String × Recipe => q.1 == m) _ hpm]
      · rw [List.find?_cons_of_neg (p := fun q : String × Recipe => q.1 == m) _ hpm,
          List.find?_cons_of_neg (p := fun q : String × Recipe => q.1 == m) _ hpm]
        exact ih

lemma find?_append_ne (l : Store) (n m : String) (r : Recipe)
    (hm : (n == m) = false) :
    (l ++ [(n, r)]).find? (fun p => p.1 == m) = l.find? (fun p => p.1 == m) := by
  induction l with
  | nil =>
    rw [List.nil_append,
      List.find?_cons_of_neg (p := fun q : String × Recipe => q.1 == m) _ (by simp [hm])]
  | cons p rest ih =>
    rw [List.cons_append]
    by_cases hpm : (p.1 == m) = true
    · rw [List.find?_cons_of_pos (p := fun q : String × Recipe => q.1 == m) _ hpm,
        List.find?_cons_of_pos (p := fun q : String × Recipe => q.1 == m) _ hpm]
    · rw [List.find?_cons_of_neg (p := fun q : String × Recipe => q.1 == m) _ hpm,
        List.find?_cons_of_neg (p := fun q : String × Recipe => q.1 == m) _ hpm]
      exact ih

lemma getRecipe_locSet_ne (store : Store) (n m : String) (r : Recipe)
    (h : m ≠ n) :
    getRecipe (locSet store n r) m = getRecipe store m := by
  have hm : (n == m) = false := by
    simp only [beq_eq_false_iff_ne, ne_eq]
    exact fun e => h e.symm
  unfold getRecipe locSet
  cases hany : store.any (fun p => p.1 == n)
  · rw [if_neg (by simp), find?_append_ne store n m r hm]
  · rw [if_pos rfl, find?_replace_ne store n m r hm]

lemma locSet_map_fst_of_mem (store : Store) (n : String) (r : Recipe)
    (h : store.any (fun p => p.1 == n) = true) :
    (locSet store n r).map Prod.fst = store.map Prod.fst := by
  unfold locSet
  rw [if_pos h, List.map_map]
  apply List.map_congr_left
  intro p _
  by_cases hp : (p.1 == n) = true
  · have hp1 : p.1 = n := eq_of_beq hp
    simp [Function.comp, hp, hp1]
  · simp [Function.comp, hp]

lemma locSet_length_of_mem (store : Store) (n : String) (r : Recipe)
    (h : store.any (fun p => p.1 == n) = true) :
    (locSet store n r).length = store.length := by
  unfold locSet
  rw [if_pos h, List.length_map]

lemma locSet_length_of_not_mem (store : Store) (n : String) (r : Recipe)
    (h : store.any (fun p => p.1 == n) = false) :
    (locSet store n r).length = store.length + 1 := by
  unfold locSet
  rw [if_neg (by simp [h]), List.length_append, List.length_singleton]

lemma length_le_locSet (store : Store) (n : String) (r : Recipe) :
    store.length ≤ (locSet store n r).length := by
  cases hany : store.any (fun p => p.1 == n)
  · rw [locSet_length_of_not_mem store n r hany]; omega
  · rw [locSet_length_of_mem store n r hany]

lemma mem_locSet (store : Store) (n : String) (r : Recipe)
    (p : String × Recipe) (h : p ∈ locSet store n r) :
    p = (n, r) ∨ p ∈ store := by
  unfold locSet at h
  cases hany : store.any (fun q => q.1 == n)
  · rw [if_neg (by simp [hany])] at h
    rcases List.mem_append.mp h with hs | hone
    · exact Or.inr hs
    · exact Or.inl (List.mem_singleton.mp hone)
  · rw [if_pos hany] at h
    obtain ⟨q, hq, rfl⟩ := List.mem_map.mp h
    by_cases hqn : (q.1 == n) = true
    · left; rw [if_pos hqn]
    · right; rw [if_neg hqn]; exact hq

lemma length_le_applyOp (store : Store) (op : Op) :
    store.length ≤ (applyOp store op).length := by
  cases op with
  | explorer c => simp [applyOp, handle_recipe_explorer]
  | search mt mr d => simp [applyOp, handle_smart_search]
  | analytics => simp [applyOp, handle_analytics]
  | addRecipe n c i pt d rt =>
    simp only [applyOp, handle_add_recipe]
    by_cases h : n ≠ "" ∧ c ≠ ""
    · rw [if_pos h]
      exact length_le_locSet store n _
    · rw [if_neg h]

/-! ### Claim theorems -/

/-- Claim C1: for every store and every prep-time ceiling `P`, rating floor
`R` and allowed-difficulty set `D`, the smart-search filter returns exactly
the subset of recipes with `prepTime ≤ P`, `rating ≥ R` and difficulty in
`D`, both numeric boundaries inclusive: no false positives or negatives. -/
theorem smart_search_filter_exact (store : Store) (P : Nat) (R : ℚ)
    (D : List String) (entry : String × Recipe) :
    entry ∈ (handle_smart_search store P R D).2 ↔
      entry ∈ store ∧ entry.2.prepTime ≤ P ∧ R ≤ entry.2.rating ∧
        entry.2.difficulty ∈ D := by
  simp [handle_smart_search, List.mem_filter, decide_eq_true_iff]

/-- Claim C2: submitting the add-recipe form with a blank name or a blank
cuisine reports the validation error (`false`) and performs no mutation:
the resulting store is the input store. -/
theorem add_recipe_blank_rejected (store : Store)
    (name cuisine ingredients : String) (pt : Nat) (d : String) (rt : ℚ)
    (h : name = "" ∨ cuisine = "") :
    handle_add_recipe store name cuisine ingredients pt d rt =
      (store, false) := by
  unfold handle_add_recipe
  rcases h with h | h <;> subst h <;> simp

/-- Witness for C2 at a concrete blank-name submission against the seeds. -/
theorem add_recipe_blank_rejected_witness :
    handle_add_recipe seedStore "" "Italian" "Pasta" 10 "Easy" 3 =
      (seedStore, false) :=
  add_recipe_blank_rejected seedStore "" "Italian" "Pasta" 10 "Easy" 3
    (Or.inl rfl)

/-- Claim C3: a successful add-recipe submission splits the ingredient
text on commas, trims each token, and stores the result retrievable by
that name with the submitted field values. -/
theorem add_recipe_success_stores_trimmed (store : Store)
    (name cuisine ingredients : String) (pt : Nat) (d : String) (rt : ℚ)
    (hn : name ≠ "") (hc : cuisine ≠ "") :
    (handle_add_recipe store name cuisine ingredients pt d rt).2 = true ∧
    getRecipe (handle_add_recipe store name cuisine ingredients pt d rt).1
        name =
      some ⟨cuisine, splitIngredients ingredients, pt, d, rt⟩ := by
  unfold handle_add_recipe
  rw [if_pos ⟨hn, hc⟩]
  exact ⟨rfl, getRecipe_locSet store name _⟩

/-- Witness for C3: adding name "X", cuisine "Y", ingredients "a, b ,c",
prep time 10, difficulty Easy, rating 4.0 stores ingredients exactly
["a", "b", "c"], retrievable by name "X". -/
theorem add_recipe_success_stores_trimmed_witness :
    (handle_add_recipe seedStore "X" "Y" "a, b ,c" 10 "Easy" 4).2 = true ∧
    getRecipe (handle_add_recipe seedStore "X" "Y" "a, b ,c" 10 "Easy" 4).1
        "X" =
      some ⟨"Y", ["a", "b", "c"], 10, "Easy", 4⟩ := by
  have h := add_recipe_success_stores_trimmed seedStore "X" "Y" "a, b ,c" 10
    "Easy" 4 (by decide) (by decide)
  exact ⟨h.1, by rw [h.2]; rfl⟩

/-- Claim C4: adding a recipe whose name equals an existing entry's name
overwrites that entry: store size unchanged, the entry under that name
carries the new field values, and the key sequence (hence uniqueness of
names) is preserved. -/
theorem add_recipe_overwrite (store : Store)
    (name cuisine ingredients : String) (pt : Nat) (d : String) (rt : ℚ)
    (hn : name ≠ "") (hc : cuisine ≠ "")
    (hmem : store.any (fun p => p.1 == name) = true) :
    (handle_add_recipe store name cuisine ingredients pt d rt).1.length =
      store.length ∧
    getRecipe (handle_add_recipe store name cuisine ingredients pt d rt).1
        name =
      some ⟨cuisine, splitIngredients ingredients, pt, d, rt⟩ ∧
    (handle_add_recipe store name cuisine ingredients pt d rt).1.map
        Prod.fst = store.map Prod.fst ∧
    ((store.map Prod.fst).Nodup →
      ((handle_add_recipe store name cuisine ingredients pt d rt).1.map
        Prod.fst).Nodup) := by
  unfold handle_add_recipe
  rw [if_pos ⟨hn, hc⟩]
  refine ⟨locSet_length_of_mem store name _ hmem,
    getRecipe_locSet store name _,
    locSet_map_fst_of_mem store name _ hmem, fun hnd => ?_⟩
  have he := locSet_map_fst_of_mem store name
    (⟨cuisine, splitIngredients ingredients, pt, d, rt⟩ : Recipe) hmem
  exact he ▸ hnd

/-- Witness for C4: overwriting the seed entry "Avocado Toast". -/
theorem add_recipe_overwrite_witness :
    (handle_add_recipe seedStore "Avocado Toast" "Fusion" "Bread" 7 "Medium"
        2).1.length = seedStore.length ∧
    getRecipe (handle_add_recipe seedStore "Avocado Toast" "Fusion" "Bread" 7
        "Medium" 2).1 "Avocado Toast" =
      some ⟨"Fusion", ["Bread"], 7, "Medium", 2⟩ ∧
    (handle_add_recipe seedStore "Avocado Toast" "Fusion" "Bread" 7
        "Medium" 2).1.map Prod.fst = seedStore.map Prod.fst ∧
    ((seedStore.map Prod.fst).Nodup →
      ((handle_add_recipe seedStore "Avocado Toast" "Fusion" "Bread" 7
        "Medium" 2).1.map Prod.fst).Nodup) := by
  have h := add_recipe_overwrite seedStore "Avocado Toast" "Fusion" "Bread" 7
    "Medium" 2 (by decide) (by decide) (by decide)
  exact ⟨h.1, by rw [h.2.1]; rfl, h.2.2.1, h.2.2.2⟩

/-- Claim C5 (supporting theorem): the text `create_ingredient_cloud`
builds and hands to the word-cloud generator is the empty string both for
an empty store and for a store whose only recipe has no ingredients; the
code applies no emptiness guard before generating. -/
theorem ingredient_cloud_text_empty :
    ingredientText [] = "" ∧
    ingredientText [("Empty", ⟨"X", [], 5, "Easy", 3⟩)] = "" :=
  ⟨rfl, rfl⟩

/-- Claim C6: the store is mutated only by add-recipe: explorer, smart
search and analytics return the store unchanged, and across any sequence
of operations the number of stored recipes never decreases. -/
theorem store_mutated_only_by_add (store : Store) (c : String) (mt : Nat)
    (mr : ℚ) (d : List String) (ops : List Op) :
    (handle_recipe_explorer store c).1 = store ∧
    (handle_smart_search store mt mr d).1 = store ∧
    (handle_analytics store).1 = store ∧
    store.length ≤ (runOps store ops).length := by
  refine ⟨rfl, rfl, rfl, ?_⟩
  induction ops generalizing store with
  | nil => exact le_refl _
  | cons op rest ih =>
    exact le_trans (length_le_applyOp store op) (ih (applyOp store op))

/-- Claim C7: with an empty allowed-difficulty set the smart-search filter
returns an empty result for any non-empty store. -/
theorem empty_difficulty_empty_result (store : Store) (P : Nat) (R : ℚ)
    (_hne : store ≠ []) :
    (handle_smart_search store P R []).2 = [] := by
  unfold handle_smart_search
  refine List.filter_eq_nil_iff.mpr ?_
  intro a _
  simp

/-- Witness for C7 at the seed store. -/
theorem empty_difficulty_empty_result_witness :
    (handle_smart_search seedStore 120 1 []).2 = [] :=
  empty_difficulty_empty_result seedStore 120 1 (by decide)

/-- Claim C8: every recipe in any store reachable in a session (the seeds
and anything added through the widget-constrained form) satisfies the
data-model invariant: positive prep time, difficulty in Easy/Medium/Hard,
rating in [1.0, 5.0]. -/
theorem reachable_recipes_valid (s : Store) (h : Reachable s) :
    ∀ p ∈ s, RecipeValid p.2 := by
  induction h with
  | seed => decide
  | next s op h hw ih =>
    intro p hp
    cases op with
    | explorer c => exact ih p hp
    | search mt mr d => exact ih p hp
    | analytics => exact ih p hp
    | addRecipe n c i pt df rt =>
      simp only [applyOp] at hp
      unfold handle_add_recipe at hp
      by_cases hv : n ≠ "" ∧ c ≠ ""
      · rw [if_pos hv] at hp
        rcases mem_locSet s n _ p hp with rfl | hmem
        · obtain ⟨h1, h2, h3, h4, h5⟩ := hw
          exact ⟨h1, h3, h4, h5⟩
        · exact ih p hmem
      · rw [if_neg hv] at hp
        exact ih p hp

/-- Witness for C8 at the seed store's first recipe. -/
theorem reachable_recipes_valid_witness :
    RecipeValid ⟨"Italian", ["Pasta", "Eggs", "Cheese", "Bacon"], 20,
      "Medium", mkRat 45 10⟩ :=
  reachable_recipes_valid seedStore Reachable.seed
    ("Spaghetti Carbonara",
      ⟨"Italian", ["Pasta", "Eggs", "Cheese", "Bacon"], 20, "Medium",
        mkRat 45 10⟩)
    (by decide)

/-- Claim C9: a successful add-recipe submission with empty ingredient
text stores the ingredients list [""] (one empty token), not []. -/
theorem add_recipe_empty_ingredients_singleton (store : Store)
    (name cuisine : String) (pt : Nat) (d : String) (rt : ℚ)
    (hn : name ≠ "") (hc : cuisine ≠ "") :
    getRecipe (handle_add_recipe store name cuisine "" pt d rt).1 name =
      some ⟨cuisine, [""], pt, d, rt⟩ := by
  unfold handle_add_recipe
  rw [if_pos ⟨hn, hc⟩]
  exact getRecipe_locSet store name _

/-- Witness for C9 at a concrete submission against the seeds. -/
theorem add_recipe_empty_ingredients_singleton_witness :
    getRecipe (handle_add_recipe seedStore "X" "Y" "" 10 "Easy" 4).1 "X" =
      some ⟨"Y", [""], 10, "Easy", 4⟩ :=
  add_recipe_empty_ingredients_singleton seedStore "X" "Y" 10 "Easy" 4
    (by decide) (by decide)

/-- Claim C10: validation does not trim: a whitespace-only name passes,
the entry is stored under the exact untrimmed name, the store grows when
no entry has that exact name, and every other key's lookup is unchanged,
so names differing only in surrounding whitespace are distinct keys. -/
theorem whitespace_name_distinct_key (store : Store)
    (cuisine ingredients : String) (pt : Nat) (d : String) (rt : ℚ)
    (hc : cuisine ≠ "")
    (hfresh : store.any (fun p => p.1 == " ") = false) :
    (handle_add_recipe store " " cuisine ingredients pt d rt).2 = true ∧
    getRecipe (handle_add_recipe store " " cuisine ingredients pt d rt).1
        " " =
      some ⟨cuisine, splitIngredients ingredients, pt, d, rt⟩ ∧
    (handle_add_recipe store " " cuisine ingredients pt d rt).1.length =
      store.length + 1 ∧
    ∀ m : String, m ≠ " " →
      getRecipe (handle_add_recipe store " " cuisine ingredients pt d rt).1
          m =
        getRecipe store m := by
  unfold handle_add_recipe
  rw [if_pos ⟨by decide, hc⟩]
  exact ⟨rfl, getRecipe_locSet store " " _,
    locSet_length_of_not_mem store " " _ hfresh,
    fun m hm => getRecipe_locSet_ne store " " m _ hm⟩

/-- Witness for C10: adding under the name " " against the seeds succeeds,
stores under " " exactly, grows the store to 4 entries, and leaves the
lookup of the trimmed name "" unchanged. -/
theorem whitespace_name_distinct_key_witness :
    (handle_add_recipe seedStore " " "Y" "a" 10 "Easy" 4).2 = true ∧
    getRecipe (handle_add_recipe seedStore " " "Y" "a" 10 "Easy" 4).1 " " =
      some ⟨"Y", ["a"], 10, "Easy", 4⟩ ∧
    (handle_add_recipe seedStore " " "Y" "a" 10 "Easy" 4).1.length =
      seedStore.length + 1 ∧
    getRecipe (handle_add_recipe seedStore " " "Y" "a" 10 "Easy" 4).1 "" =
      getRecipe seedStore "" := by
  have h := whitespace_name_distinct_key seedStore "Y" "a" 10 "Easy" 4
    (by decide) (by decide)
  exact ⟨h.1, by rw [h.2.1]; rfl, h.2.2.1, h.2.2.2 "" (by decide)⟩

end RecipeApp
